import Mathlib

set_option maxRecDepth 100000

/-!
Verification of the Stream Frame Extractor of `rx_gui.py`
(`ImageRecoveryBlock._handle` and `ImageRecoveryBlock._valid_jpeg`).

Bytes are modelled as natural numbers, byte strings as `List Nat`.
`bytearray.find(pat, s)` is modelled by `find`, the `_handle` message
handler by `handle` (append the chunk, then `scan` the buffer once),
`_valid_jpeg` by `valid_jpeg`.  The structural JPEG check done by
Pillow (`Image.open` + `verify`) is an external library call; it enters
the model as an abstract boolean function `pilVerify`, and the flag
`HAS_PIL` as a boolean parameter.  Repeatedly delivering empty chunks
until the scan makes no more progress is modelled by `drain`.
-/

/-- `JPEG_START = b"\xFF\xD8"` from `rx_gui.py`. -/
def JPEG_START : List Nat := [255, 216]

/-- `JPEG_END = b"\xFF\xD9"` from `rx_gui.py`. -/
def JPEG_END : List Nat := [255, 217]

/-- First index `i` (counting from 0) in `l` at which `pat` occurs as a
contiguous sublist, scanning left to right. -/
def findAux (pat : List Nat) : List Nat → Option Nat
  | [] => none
  | x :: rest =>
    if pat.isPrefixOf (x :: rest) then some 0 else (findAux pat rest).map (· + 1)

/-- Python's `bytes.find(pat, s)` (absence modelled as `none` instead of `-1`):
least index `i ≥ s` such that `pat` occurs in `l` starting at `i`. -/
def find (pat l : List Nat) (s : Nat) : Option Nat :=
  (findAux pat (l.drop s)).map (· + s)

/-- `ImageRecoveryBlock._valid_jpeg`, with `HAS_PIL` and the Pillow
structural check (`Image.open` / `im.verify`, an external library) as
parameters: reject candidates shorter than 100 bytes; if Pillow is
absent, accept on length alone; otherwise defer to the Pillow check. -/
def valid_jpeg (hasPIL : Bool) (pilVerify : List Nat → Bool) (b : List Nat) : Bool :=
  if b.length < 100 then false
  else if !hasPIL then true
  else pilVerify b

/-- One scan of the buffer, exactly the marker-search part of
`ImageRecoveryBlock._handle` after the chunk has been appended:
find `JPEG_START` from offset 0; if found at `s`, find `JPEG_END` from
offset `s`; if found at `e`, slice `jpg = buf[s:e+2]`; if it validates,
emit it and keep `buf[e+2:]`, otherwise delete `buf[:s+2]`.
Returns the new buffer and the emission (if any). -/
def scan (valid : List Nat → Bool) (b : List Nat) : List Nat × Option (List Nat) :=
  match find JPEG_START b 0 with
  | none => (b, none)
  | some s =>
    match find JPEG_END b s with
    | none => (b, none)
    | some e =>
      let jpg := (b.drop s).take (e + 2 - s)
      if valid jpg then (b.drop (e + 2), some jpg) else (b.drop (s + 2), none)

/-- `ImageRecoveryBlock._handle`: extend the buffer with the chunk
delivered by the PDU message, then scan once. -/
def handle (valid : List Nat → Bool) (buf chunk : List Nat) : List Nat × Option (List Nat) :=
  scan valid (buf ++ chunk)

/-- A run of the extractor: fold `handle` over a list of chunks starting
from a given buffer, collecting the emitted payloads in order. -/
def run (valid : List Nat → Bool) : List Nat → List (List Nat) → List Nat × List (List Nat)
  | buf, [] => (buf, [])
  | buf, c :: cs =>
    let p := handle valid buf c
    let q := run valid p.1 cs
    (q.1, p.2.toList ++ q.2)

/-- Draining the buffer: scan repeatedly (which is what repeated
`ingest("")` calls do, since `handle valid b [] = scan valid b`) until a
scan makes no progress; collect all payloads emitted on the way.
Every productive scan strictly shrinks the buffer, so this terminates. -/
def drain (valid : List Nat → Bool) (b : List Nat) : List Nat × List (List Nat) :=
  if h : (scan valid b).1.length < b.length then
    ((drain valid (scan valid b).1).1,
      (scan valid b).2.toList ++ (drain valid (scan valid b).1).2)
  else
    ((scan valid b).1, (scan valid b).2.toList)
termination_by b.length
decreasing_by exact h

/-- `true` iff the two-byte pattern `a b` occurs nowhere in `l`. -/
def noOcc (a b : Nat) (l : List Nat) : Bool :=
  (List.range l.length).all (fun j => !((l[j]? == some a) && (l[j+1]? == some b)))

/-- A 100-byte frame: start marker, 96 zero bytes, end marker. -/
def frameA : List Nat := 255 :: 216 :: (List.replicate 96 0 ++ [255, 217])

/-- A 100-byte frame distinct from `frameA`: filler bytes are 1. -/
def frameB : List Nat := 255 :: 216 :: (List.replicate 96 1 ++ [255, 217])

/-- The validator in the Pillow-absent configuration (`HAS_PIL = False`):
a candidate is valid iff it is at least 100 bytes long. -/
def val100 : List Nat → Bool := valid_jpeg false (fun _ => true)

/-! ## Basic facts about `isPrefixOf`, `findAux` and `find` -/

lemma isPrefixOf_iff_take (p l : List Nat) :
    p.isPrefixOf l = true ↔ l.take p.length = p := by
  rw [ List.isPrefixOf_iff_prefix]
  constructor
  · intro h
    exact ( List.prefix_iff_eq_take.mp h).symm
  · intro h
    rw [ List.prefix_iff_eq_take]
    exact h.symm

lemma isPrefixOf_length_le {p l : List Nat} (h : p.isPrefixOf l = true) :
    p.length ≤ l.length := by
  have h1 := (isPrefixOf_iff_take p l).mp h
  have h2 : (l.take p.length).length = min p.length l.length := List.length_take _ _
  rw [h1] at h2
  omega

lemma findAux_some {pat : List Nat} :
    ∀ {x : List Nat} {i : Nat}, findAux pat x = some i →
      pat.isPrefixOf (x.drop i) = true := by
  intro x
  induction x with
  | nil => intro i h; simp [findAux] at h
  | cons y rest ih =>
    intro i h
    rw [findAux] at h
    split at h
    · rename_i hp
      cases h
      simpa using hp
    · cases hfa : findAux pat rest with
      | none => rw [hfa] at h; simp at h
      | some j =>
        rw [hfa] at h
        simp at h
        subst h
        simpa using ih hfa

lemma findAux_min {pat : List Nat} :
    ∀ {x : List Nat} {i : Nat}, findAux pat x = some i →
      ∀ k, k < i → pat.isPrefixOf (x.drop k) = false := by
  intro x
  induction x with
  | nil => intro i h; simp [findAux] at h
  | cons y rest ih =>
    intro i h k hk
    rw [findAux] at h
    split at h
    · cases h; omega
    · rename_i hp
      cases hfa : findAux pat rest with
      | none => rw [hfa] at h; simp at h
      | some j =>
        rw [hfa] at h
        simp at h
        subst h
        cases k with
        | zero =>
          rw [List.drop_zero]
          exact Bool.eq_false_iff.mpr hp
        | succ k => simpa using ih hfa k (by omega)

lemma find_some {pat l : List Nat} {s e : Nat} (h : find pat l s = some e) :
    s ≤ e ∧ pat.isPrefixOf (l.drop e) = true := by
  unfold find at h
  cases hfa : findAux pat (l.drop s) with
  | none => rw [hfa] at h; simp at h
  | some i =>
    rw [hfa] at h
    simp at h
    have hm := findAux_some hfa
    rw [List.drop_drop] at hm
    constructor
    · omega
    · have : s + i = e := by omega
      rw [← this]
      exact hm

lemma find_min {pat l : List Nat} {s e : Nat} (h : find pat l s = some e) :
    ∀ j, s ≤ j → j < e → pat.isPrefixOf (l.drop j) = false := by
  intro j hsj hje
  unfold find at h
  cases hfa : findAux pat (l.drop s) with
  | none => rw [hfa] at h; simp at h
  | some i =>
    rw [hfa] at h
    simp at h
    have hm := findAux_min hfa (j - s) (by omega)
    rw [List.drop_drop] at hm
    have : s + (j - s) = j := by omega
    rwa [this] at hm

lemma find_fit {pat l : List Nat} {s e : Nat} (hp : pat ≠ [])
    (h : find pat l s = some e) : e + pat.length ≤ l.length := by
  have hm := (find_some h).2
  have hl := isPrefixOf_length_le hm
  rw [List.length_drop] at hl
  have hpat : 1 ≤ pat.length := by
    cases pat with
    | nil => exact absurd rfl hp
    | cons a t => simp
  omega

lemma find_step {pat : List Nat} (hp : pat ≠ []) (l : List Nat) (s : Nat) :
    find pat l s =
      if pat.isPrefixOf (l.drop s) = true then some s else find pat l (s + 1) := by
  cases hd : l.drop s with
  | nil =>
    have hlen : l.length ≤ s := List.drop_eq_nil_iff.mp hd
    have hd1 : l.drop (s + 1) = [] := List.drop_eq_nil_iff.mpr (by omega)
    have hpf : pat.isPrefixOf ([] : List Nat) = false := by
      cases pat with
      | nil => exact absurd rfl hp
      | cons a t => rfl
    unfold find
    rw [hd, hd1, hpf]
    simp [findAux]
  | cons y rest =>
    have hrest : l.drop (s + 1) = rest := by
      have : (l.drop s).drop 1 = l.drop (s + 1) := List.drop_drop 1 s l
      rw [hd] at this
      simpa using this.symm
    unfold find
    rw [hd, hrest, findAux]
    split
    · simp
    · cases hfa : findAux pat rest with
      | none => simp [hfa]
      | some j =>
        simp [hfa]
        omega

lemma find_eq_some_of {pat l : List Nat} (hp : pat ≠ []) {e : Nat}
    (hm : pat.isPrefixOf (l.drop e) = true) :
    ∀ s, s ≤ e → (∀ j, s ≤ j → j < e → pat.isPrefixOf (l.drop j) = false) →
      find pat l s = some e := by
  have key : ∀ d s, e - s ≤ d → s ≤ e →
      (∀ j, s ≤ j → j < e → pat.isPrefixOf (l.drop j) = false) →
      find pat l s = some e := by
    intro d
    induction d with
    | zero =>
      intro s hd hse _
      have : s = e := by omega
      subst this
      rw [find_step hp, if_pos hm]
    | succ d ih =>
      intro s hd hse hmin
      by_cases hcase : s = e
      · subst hcase
        rw [find_step hp, if_pos hm]
      · have hlt : s < e := by omega
        have hns : pat.isPrefixOf (l.drop s) = false := hmin s (by omega) hlt
        rw [find_step hp, if_neg (by simp [hns])]
        exact ih (s + 1) (by omega) (by omega) (fun j h1 h2 => hmin j (by omega) h2)
  intro s hse hmin
  exact key (e - s) s (by omega) hse hmin

lemma find_eq_none_of {pat l : List Nat} {s : Nat}
    (h : ∀ j, s ≤ j → pat.isPrefixOf (l.drop j) = false) : find pat l s = none := by
  cases hf : find pat l s with
  | none => rfl
  | some e =>
    obtain ⟨hse, hm⟩ := find_some hf
    rw [h e hse] at hm
    cases hm

lemma isPrefixOf_append_eq {pat a : List Nat} (t : List Nat) {j : Nat}
    (hj : j + pat.length ≤ a.length) :
    pat.isPrefixOf ((a ++ t).drop j) = pat.isPrefixOf (a.drop j) := by
  have hd : (a ++ t).drop j = a.drop j ++ t := List.drop_append_of_le_length (by omega)
  rw [hd]
  have hlen : pat.length ≤ (a.drop j).length := by
    rw [List.length_drop]
    omega
  cases hb : pat.isPrefixOf (a.drop j) with
  | true =>
    have htake := (isPrefixOf_iff_take pat (a.drop j)).mp hb
    rw [isPrefixOf_iff_take, List.take_append_of_le_length hlen]
    exact htake
  | false =>
    cases hb2 : pat.isPrefixOf (a.drop j ++ t) with
    | false => rfl
    | true =>
      have htake := (isPrefixOf_iff_take pat (a.drop j ++ t)).mp hb2
      rw [List.take_append_of_le_length hlen] at htake
      rw [(isPrefixOf_iff_take pat (a.drop j)).mpr htake] at hb
      cases hb

lemma find_append {pat l : List Nat} (t : List Nat) {s e : Nat} (hp : pat ≠ [])
    (h : find pat l s = some e) : find pat (l ++ t) s = some e := by
  obtain ⟨hse, hm⟩ := find_some h
  have hfit := find_fit hp h
  have hpat : 1 ≤ pat.length := by
    cases pat with
    | nil => exact absurd rfl hp
    | cons a r => simp
  apply find_eq_some_of hp _ s hse
  · intro j h1 h2
    rw [isPrefixOf_append_eq t (by omega)]
    exact find_min h j h1 h2
  · rw [isPrefixOf_append_eq t (by omega)]
    exact hm

lemma take_two_iff {a b : Nat} :
    ∀ x : List Nat, x.take 2 = [a, b] ↔ (x[0]? = some a ∧ x[1]? = some b)
  | [] => by simp
  | [c] => by simp
  | c :: d :: r => by simp [List.take]

lemma isPrefixOf_pair {a b : Nat} {l : List Nat} (j : Nat) :
    ([a, b] : List Nat).isPrefixOf (l.drop j) = true ↔
      (l[j]? = some a ∧ l[j+1]? = some b) := by
  rw [isPrefixOf_iff_take]
  have h2 : ([a, b] : List Nat).length = 2 := rfl
  rw [h2, take_two_iff]
  rw [List.getElem?_drop, List.getElem?_drop]
  constructor
  · intro h
    refine ⟨h.1, ?_⟩
    have := h.2
    rwa [show j + 1 = j + 1 from rfl] at this
  · intro h
    exact ⟨h.1, h.2⟩

lemma noOcc_spec {a b : Nat} {l : List Nat} (h : noOcc a b l = true) :
    ∀ j, ¬(l[j]? = some a ∧ l[j+1]? = some b) := by
  intro j hj
  by_cases hlen : j < l.length
  · unfold noOcc at h
    rw [List.all_eq_true] at h
    have := h j (List.mem_range.mpr hlen)
    rw [hj.1, hj.2] at this
    simp at this
  · have : l[j]? = none := List.getElem?_eq_none (by omega)
    rw [this] at hj
    exact absurd hj.1 (by simp)

/-! ## Scan-level lemmas -/

lemma scan_no_start {valid : List Nat → Bool} {b : List Nat}
    (h : find JPEG_START b 0 = none) : scan valid b = (b, none) := by
  unfold scan
  rw [h]

lemma scan_no_end {valid : List Nat → Bool} {b : List Nat} {s : Nat}
    (hs : find JPEG_START b 0 = some s) (he : find JPEG_END b s = none) :
    scan valid b = (b, none) := by
  unfold scan
  rw [hs]
  simp only [he]

lemma scan_of_valid {valid : List Nat → Bool} {b : List Nat} {s e : Nat}
    (hs : find JPEG_START b 0 = some s) (he : find JPEG_END b s = some e)
    (hv : valid ((b.drop s).take (e + 2 - s)) = true) :
    scan valid b = (b.drop (e + 2), some ((b.drop s).take (e + 2 - s))) := by
  unfold scan
  rw [hs]
  simp only [he, hv, if_true]

lemma scan_of_invalid {valid : List Nat → Bool} {b : List Nat} {s e : Nat}
    (hs : find JPEG_START b 0 = some s) (he : find JPEG_END b s = some e)
    (hv : valid ((b.drop s).take (e + 2 - s)) = false) :
    scan valid b = (b.drop (s + 2), none) := by
  unfold scan
  rw [hs]
  simp only [he, hv, Bool.false_eq_true, if_false]

lemma scan_shrink {valid : List Nat → Bool} {b : List Nat} {s e : Nat}
    (hs : find JPEG_START b 0 = some s) (he : find JPEG_END b s = some e) :
    (scan valid b).1.length < b.length := by
  have hfitS : s + 2 ≤ b.length := find_fit (by decide) hs
  have hfitE : e + 2 ≤ b.length := find_fit (by decide) he
  cases hv : valid ((b.drop s).take (e + 2 - s)) with
  | true =>
    rw [scan_of_valid hs he hv]
    simp [List.length_drop]
    omega
  | false =>
    rw [scan_of_invalid hs he hv]
    simp [List.length_drop]
    omega

lemma scan_append {valid : List Nat → Bool} {b : List Nat} (t : List Nat) {s e : Nat}
    (hs : find JPEG_START b 0 = some s) (he : find JPEG_END b s = some e) :
    scan valid (b ++ t) = ((scan valid b).1 ++ t, (scan valid b).2) := by
  have hse : s ≤ e := (find_some he).1
  have hfitS : s + 2 ≤ b.length := find_fit (by decide) hs
  have hfitE : e + 2 ≤ b.length := find_fit (by decide) he
  have hs2 : find JPEG_START (b ++ t) 0 = some s := find_append t (by decide) hs
  have he2 : find JPEG_END (b ++ t) s = some e := find_append t (by decide) he
  have hjpg : ((b ++ t).drop s).take (e + 2 - s) = (b.drop s).take (e + 2 - s) := by
    rw [List.drop_append_of_le_length (by omega)]
    rw [List.take_append_of_le_length (by rw [List.length_drop]; omega)]
  cases hv : valid ((b.drop s).take (e + 2 - s)) with
  | true =>
    rw [scan_of_valid hs2 he2 (by rw [hjpg]; exact hv)]
    rw [scan_of_valid hs he hv]
    rw [hjpg, List.drop_append_of_le_length (by omega)]
  | false =>
    rw [scan_of_invalid hs2 he2 (by rw [hjpg]; exact hv)]
    rw [scan_of_invalid hs he hv]
    rw [List.drop_append_of_le_length (by omega)]

/-! ## Drain and run lemmas -/

lemma handle_empty (valid : List Nat → Bool) (b : List Nat) :
    handle valid b [] = scan valid b := by
  unfold handle
  rw [List.append_nil]

lemma drain_no_progress {valid : List Nat → Bool} {b : List Nat}
    (h : scan valid b = (b, none)) : drain valid b = (b, []) := by
  unfold drain
  rw [h]
  simp

lemma drain_progress {valid : List Nat → Bool} {b : List Nat}
    (h : (scan valid b).1.length < b.length) :
    drain valid b = ((drain valid (scan valid b).1).1,
      (scan valid b).2.toList ++ (drain valid (scan valid b).1).2) := by
  rw [drain.eq_def]
  rw [dif_pos h]

lemma run_nil (valid : List Nat → Bool) (b : List Nat) : run valid b [] = (b, []) := rfl

lemma run_cons (valid : List Nat → Bool) (b c : List Nat) (cs : List (List Nat)) :
    run valid b (c :: cs) =
      ((run valid (handle valid b c).1 cs).1,
        (handle valid b c).2.toList ++ (run valid (handle valid b c).1 cs).2) := rfl

/-- Chunk-split invariance after draining: processing any chunk list and
then draining the final buffer emits the same payload sequence as
draining the concatenation of all the chunks directly. -/
lemma run_drain_join (valid : List Nat → Bool) :
    ∀ (cs : List (List Nat)) (b : List Nat),
      (run valid b cs).2 ++ (drain valid (run valid b cs).1).2 =
        (drain valid (b ++ cs.flatten)).2 := by
  intro cs
  induction cs with
  | nil =>
    intro b
    rw [run_nil]
    simp
  | cons c cs ih =>
    intro b
    rw [run_cons]
    have hh : handle valid b c = scan valid (b ++ c) := rfl
    have hjoin : b ++ (c :: cs).flatten = (b ++ c) ++ cs.flatten := by
      simp [List.flatten_cons]
    rw [hjoin]
    cases hs : find JPEG_START (b ++ c) 0 with
    | none =>
      have hscan : scan valid (b ++ c) = (b ++ c, none) := scan_no_start hs
      rw [hh, hscan]
      simpa using ih (b ++ c)
    | some s =>
      cases he : find JPEG_END (b ++ c) s with
      | none =>
        have hscan : scan valid (b ++ c) = (b ++ c, none) := scan_no_end hs he
        rw [hh, hscan]
        simpa using ih (b ++ c)
      | some e =>
        have hshrink : (scan valid (b ++ c)).1.length < (b ++ c).length :=
          scan_shrink hs he
        have happ : scan valid ((b ++ c) ++ cs.flatten) =
            ((scan valid (b ++ c)).1 ++ cs.flatten, (scan valid (b ++ c)).2) :=
          scan_append cs.flatten hs he
        have hshrink2 : (scan valid ((b ++ c) ++ cs.flatten)).1.length <
            ((b ++ c) ++ cs.flatten).length := by
          rw [happ]
          simp only [List.length_append]
          simp only [List.length_append] at hshrink
          omega
        rw [drain_progress hshrink2, hh]
        have h1 : (scan valid ((b ++ c) ++ cs.flatten)).1 =
            (scan valid (b ++ c)).1 ++ cs.flatten := by rw [happ]
        have h2 : (scan valid ((b ++ c) ++ cs.flatten)).2 = (scan valid (b ++ c)).2 := by
          rw [happ]
        rw [h1, h2]
        rw [← ih (scan valid (b ++ c)).1]
        simp

/-! ## Marker-geometry lemmas -/

lemma isPrefixOf_pair_false_of_noOcc {a b : Nat} {l : List Nat}
    (h : noOcc a b l = true) (j : Nat) :
    ([a, b] : List Nat).isPrefixOf (l.drop j) = false := by
  cases hx : ([a, b] : List Nat).isPrefixOf (l.drop j) with
  | false => rfl
  | true => exact absurd ((isPrefixOf_pair j).mp hx) (noOcc_spec h j)

lemma find_none_of_noOcc {a b : Nat} {l : List Nat} (h : noOcc a b l = true) (s : Nat) :
    find [a, b] l s = none :=
  find_eq_none_of (fun j _ => isPrefixOf_pair_false_of_noOcc h j)

/-- In `u ++ (m ++ v)`, when the two-byte pattern `x y` does not occur in
`m` and `v` starts with `x y` (with `x ≠ y`, which rules out a match
straddling the `m`/`v` boundary), the first occurrence of the pattern at
or after `u.length` is exactly at `u.length + m.length`. -/
lemma find_from_boundary {x y : Nat} (hxy : x ≠ y) {u m v : List Nat}
    (hm : noOcc x y m = true) (hv0 : v[0]? = some x) (hv1 : v[1]? = some y) :
    find [x, y] (u ++ (m ++ v)) u.length = some (u.length + m.length) := by
  have hpat : ([x, y] : List Nat) ≠ [] := by simp
  have hlk : ∀ k, (u ++ (m ++ v))[u.length + k]? = (m ++ v)[k]? := by
    intro k
    rw [List.getElem?_append_right (by omega)]
    congr 1
    omega
  apply find_eq_some_of hpat
  · rw [isPrefixOf_pair]
    constructor
    · rw [hlk m.length, List.getElem?_append_right (by omega)]
      simpa using hv0
    · have : u.length + m.length + 1 = u.length + (m.length + 1) := by omega
      rw [this, hlk (m.length + 1), List.getElem?_append_right (by omega)]
      have : m.length + 1 - m.length = 1 := by omega
      rw [this]
      exact hv1
  · omega
  · intro j huj hje
    cases hx : ([x, y] : List Nat).isPrefixOf ((u ++ (m ++ v)).drop j) with
    | false => rfl
    | true =>
      exfalso
      obtain ⟨hj1, hj2⟩ := (isPrefixOf_pair j).mp hx
      have hk : j = u.length + (j - u.length) := by omega
      set k := j - u.length with hkdef
      have hkm : k < m.length := by omega
      rw [hk, hlk k] at hj1
      rw [hk] at hj2
      have : u.length + k + 1 = u.length + (k + 1) := by omega
      rw [this, hlk (k + 1)] at hj2
      rw [List.getElem?_append_left hkm] at hj1
      by_cases hk1 : k + 1 < m.length
      · rw [List.getElem?_append_left hk1] at hj2
        exact noOcc_spec hm k ⟨hj1, hj2⟩
      · have hk1e : k + 1 = m.length := by omega
        rw [List.getElem?_append_right (by omega)] at hj2
        rw [show k + 1 - m.length = 0 from by omega] at hj2
        rw [hv0] at hj2
        exact hxy (by injection hj2)

/-- After a start marker has been located at `s`, searching for the end
marker from `s` is the same as searching from `s + 2`: the bytes at `s`
are `FF D8`, so no `FF D9` can start at `s` or `s + 1`. -/
lemma find_end_skip_start {b : List Nat} {s : Nat}
    (hs : find JPEG_START b 0 = some s) :
    find JPEG_END b s = find JPEG_END b (s + 2) := by
  have hm : JPEG_START.isPrefixOf (b.drop s) = true := (find_some hs).2
  have hpair : b[s]? = some 255 ∧ b[s+1]? = some 216 :=
    (isPrefixOf_pair (a := 255) (b := 216) s).mp hm
  have hc1 : JPEG_END.isPrefixOf (b.drop s) = false := by
    cases hx : JPEG_END.isPrefixOf (b.drop s) with
    | false => rfl
    | true =>
      exfalso
      have h2 := ((isPrefixOf_pair (a := 255) (b := 217) s).mp hx).2
      rw [hpair.2] at h2
      exact absurd (by injection h2) (by omega)
  have hc2 : JPEG_END.isPrefixOf (b.drop (s + 1)) = false := by
    cases hx : JPEG_END.isPrefixOf (b.drop (s + 1)) with
    | false => rfl
    | true =>
      exfalso
      have h2 := ((isPrefixOf_pair (a := 255) (b := 217) (s + 1)).mp hx).1
      rw [hpair.2] at h2
      exact absurd (by injection h2) (by omega)
  have hend : (JPEG_END : List Nat) ≠ [] := by decide
  rw [find_step hend b s, hc1]
  rw [find_step hend b (s + 1), hc2]
  simp

/-! ## Claim theorems -/

/-- C4: if the start marker is found at `s` and the end marker at `e`,
and the candidate `buffer[s : e+2]` passes validation, the ingest call
emits exactly that candidate and the buffer afterwards is the old buffer
with `buffer[0 : e+2]` removed. -/
theorem C4_valid_candidate_emits (valid : List Nat → Bool) (buf chunk : List Nat) (s e : Nat)
    (hs : find JPEG_START (buf ++ chunk) 0 = some s)
    (he : find JPEG_END (buf ++ chunk) s = some e)
    (hv : valid (((buf ++ chunk).drop s).take (e + 2 - s)) = true) :
    handle valid buf chunk =
      ((buf ++ chunk).drop (e + 2), some (((buf ++ chunk).drop s).take (e + 2 - s))) := by
  unfold handle
  exact scan_of_valid hs he hv

/-- Witness for C4: ingesting `frameA` into an empty buffer emits
`frameA` itself and empties the buffer. -/
theorem C4_witness :
    handle val100 [] frameA =
      (([] ++ frameA).drop (98 + 2), some ((([] ++ frameA).drop 0).take (98 + 2 - 0))) :=
  C4_valid_candidate_emits val100 [] frameA 0 98 (by decide) (by decide) (by decide)

/-- C5: the end-marker offset used to delimit the candidate is the first
end-marker occurrence at or after `s + 2`; the end marker chosen never
overlaps the matched start marker. -/
theorem C5_end_marker_after_start (b : List Nat) (s : Nat)
    (hs : find JPEG_START b 0 = some s) :
    find JPEG_END b s = find JPEG_END b (s + 2) ∧
      (∀ e, find JPEG_END b s = some e → s + 2 ≤ e) := by
  have hskip := find_end_skip_start hs
  refine ⟨hskip, ?_⟩
  intro e he
  rw [hskip] at he
  exact (find_some he).1

/-- Witness for C5 at a concrete buffer with a start marker at offset 0. -/
theorem C5_witness :
    (find JPEG_END [255, 216, 255, 217] 0 = find JPEG_END [255, 216, 255, 217] (0 + 2) ∧
      (∀ e, find JPEG_END [255, 216, 255, 217] 0 = some e → 0 + 2 ≤ e)) :=
  C5_end_marker_after_start [255, 216, 255, 217] 0 (by decide)

/-- C6: candidates shorter than 100 bytes are rejected regardless of
whether Pillow is available; when Pillow is unavailable, any candidate of
at least 100 bytes is accepted. -/
theorem C6_validation_tiers (hasPIL : Bool) (pilVerify : List Nat → Bool) (b : List Nat) :
    (b.length < 100 → valid_jpeg hasPIL pilVerify b = false) ∧
      (hasPIL = false → 100 ≤ b.length → valid_jpeg hasPIL pilVerify b = true) := by
  constructor
  · intro h
    unfold valid_jpeg
    rw [if_pos h]
  · intro hPIL hlen
    unfold valid_jpeg
    rw [if_neg (by omega)]
    subst hPIL
    rfl

/-- Witness for C6: a 1-byte candidate is rejected even with the
structural checker present; a 100-byte candidate is accepted without it. -/
theorem C6_witness :
    valid_jpeg true (fun _ => true) [0] = false ∧
      valid_jpeg false (fun _ => false) (List.replicate 100 0) = true :=
  ⟨(C6_validation_tiers true (fun _ => true) [0]).1 (by decide),
    (C6_validation_tiers false (fun _ => false) (List.replicate 100 0)).2 rfl (by simp)⟩

/-- C8: when no start marker is in the appended buffer, or a start marker
is found but no end marker follows it, the call emits nothing and the
buffer keeps every byte (no trimming). -/
theorem C8_no_pair_keeps_buffer (valid : List Nat → Bool) (buf chunk : List Nat) :
    (find JPEG_START (buf ++ chunk) 0 = none →
      handle valid buf chunk = (buf ++ chunk, none)) ∧
    (∀ s, find JPEG_START (buf ++ chunk) 0 = some s →
      find JPEG_END (buf ++ chunk) s = none →
      handle valid buf chunk = (buf ++ chunk, none)) := by
  constructor
  · intro h
    unfold handle
    exact scan_no_start h
  · intro s hs he
    unfold handle
    exact scan_no_end hs he

/-- Witness for C8: a chunk with no start marker, and one with a start
marker but no end marker, are both buffered unchanged with no emission. -/
theorem C8_witness :
    handle val100 [] [1, 2, 3] = ([] ++ [1, 2, 3], none) ∧
      handle val100 [] [255, 216, 0] = ([] ++ [255, 216, 0], none) :=
  ⟨(C8_no_pair_keeps_buffer val100 [] [1, 2, 3]).1 (by decide),
    (C8_no_pair_keeps_buffer val100 [] [255, 216, 0]).2 0 (by decide) (by decide)⟩

/-- C9: an ingest call never grows the buffer beyond the appended data,
and an invalid-candidate discard strictly decreases the buffer length,
so repeated scanning makes progress; the handler is a total function,
so no input produces a fatal error. -/
theorem C9_progress (valid : List Nat → Bool) (buf chunk : List Nat) :
    (handle valid buf chunk).1.length ≤ (buf ++ chunk).length ∧
    (∀ s e, find JPEG_START (buf ++ chunk) 0 = some s →
      find JPEG_END (buf ++ chunk) s = some e →
      valid (((buf ++ chunk).drop s).take (e + 2 - s)) = false →
      (handle valid buf chunk).1.length < (buf ++ chunk).length) := by
  constructor
  · cases hs : find JPEG_START (buf ++ chunk) 0 with
    | none =>
      unfold handle
      rw [scan_no_start hs]
    | some s =>
      cases he : find JPEG_END (buf ++ chunk) s with
      | none =>
        unfold handle
        rw [scan_no_end hs he]
      | some e =>
        have : (scan valid (buf ++ chunk)).1.length < (buf ++ chunk).length :=
          scan_shrink hs he
        unfold handle
        omega
  · intro s e hs he hv
    unfold handle
    exact scan_shrink hs he

/-- Witness for C9 at a concrete invalid candidate (`FF D8 FF D9`,
4 bytes, below the 100-byte threshold). -/
theorem C9_witness :
    (handle val100 [] [255, 216, 255, 217]).1.length ≤ ([] ++ [255, 216, 255, 217]).length ∧
      (handle val100 [] [255, 216, 255, 217]).1.length < ([] ++ [255, 216, 255, 217]).length :=
  ⟨(C9_progress val100 [] [255, 216, 255, 217]).1,
    (C9_progress val100 [] [255, 216, 255, 217]).2 0 2 (by decide) (by decide) (by decide)⟩

/-- C10: every payload the extractor emits starts with `FF D8`, ends with
`FF D9`, and is at least 100 bytes long. -/
theorem C10_emission_shape (hasPIL : Bool) (pilVerify : List Nat → Bool)
    (buf chunk b2 jpg : List Nat)
    (h : handle (valid_jpeg hasPIL pilVerify) buf chunk = (b2, some jpg)) :
    jpg.take 2 = JPEG_START ∧ jpg.drop (jpg.length - 2) = JPEG_END ∧ 100 ≤ jpg.length := by
  unfold handle at h
  cases hs : find JPEG_START (buf ++ chunk) 0 with
  | none =>
    rw [scan_no_start hs] at h
    simp at h
  | some s =>
    cases he : find JPEG_END (buf ++ chunk) s with
    | none =>
      rw [scan_no_end hs he] at h
      simp at h
    | some e =>
      cases hv : valid_jpeg hasPIL pilVerify
          (((buf ++ chunk).drop s).take (e + 2 - s)) with
      | false =>
        rw [scan_of_invalid hs he hv] at h
        simp at h
      | true =>
        rw [scan_of_valid hs he hv] at h
        have hjpg : jpg = ((buf ++ chunk).drop s).take (e + 2 - s) := by
          have h2 := congrArg Prod.snd h
          simp at h2
          exact h2.symm
        subst hjpg
        have hse : s ≤ e := (find_some he).1
        have hfitE : e + 2 ≤ (buf ++ chunk).length := find_fit (by decide) he
        have hmS : JPEG_START.isPrefixOf ((buf ++ chunk).drop s) = true := (find_some hs).2
        have hmE : JPEG_END.isPrefixOf ((buf ++ chunk).drop e) = true := (find_some he).2
        have hdroplen : ((buf ++ chunk).drop s).length = (buf ++ chunk).length - s :=
          List.length_drop s (buf ++ chunk)
        have hlen : (((buf ++ chunk).drop s).take (e + 2 - s)).length = e + 2 - s := by
          rw [List.length_take, hdroplen]
          omega
        refine ⟨?_, ?_, ?_⟩
        · rw [List.take_take]
          have h2 : min 2 (e + 2 - s) = 2 := by omega
          rw [h2]
          have := (isPrefixOf_iff_take JPEG_START ((buf ++ chunk).drop s)).mp hmS
          exact this
        · rw [hlen]
          have h2 : e + 2 - s - 2 = e - s := by omega
          rw [h2, List.drop_take]
          have h3 : (((buf ++ chunk).drop s).drop (e - s)) = (buf ++ chunk).drop e := by
            rw [List.drop_drop]
            congr 1
            omega
          rw [h3]
          have h4 : e + 2 - s - (e - s) = 2 := by omega
          rw [h4]
          exact (isPrefixOf_iff_take JPEG_END ((buf ++ chunk).drop e)).mp hmE
        · rw [hlen]
          unfold valid_jpeg at hv
          by_cases hl : (((buf ++ chunk).drop s).take (e + 2 - s)).length < 100
          · rw [if_pos hl] at hv
            cases hv
          · rw [hlen] at hl
            omega

/-- Witness for C10: the emission produced by ingesting `frameA` has the
required shape. -/
theorem C10_witness :
    frameA.take 2 = JPEG_START ∧ frameA.drop (frameA.length - 2) = JPEG_END ∧
      100 ≤ frameA.length :=
  C10_emission_shape false (fun _ => true) [] frameA [] frameA (by decide)

/-- C1 (counterexample): the claim says that after an invalid candidate
the extractor re-runs the scan within the same ingest call until a
payload is emitted or no complete marker pair remains.  Ingesting
`FF D8 FF D9 ++ frameA` into an empty buffer refutes this: the first
candidate (`FF D8 FF D9`, 4 bytes) fails validation, the call emits
nothing and returns, yet the post-call buffer still holds a complete
start/end pair whose candidate is valid — a same-call re-scan would have
emitted it. -/
theorem C1_counterexample :
    (handle val100 [] ([255, 216, 255, 217] ++ frameA)).2 = none ∧
    find JPEG_START (handle val100 [] ([255, 216, 255, 217] ++ frameA)).1 0 = some 2 ∧
    find JPEG_END (handle val100 [] ([255, 216, 255, 217] ++ frameA)).1 2 = some 100 ∧
    val100 (((handle val100 [] ([255, 216, 255, 217] ++ frameA)).1.drop 2).take 100) =
      true := by
  refine ⟨by decide, by decide, by decide, by decide⟩

/-- C1 (amended): when the located candidate fails validation, the
extractor removes `buffer[0 : s+2]` and returns with no emission; the
re-scan happens on subsequent ingest calls, not within the same call. -/
theorem C1_invalid_discards_once (valid : List Nat → Bool) (buf chunk : List Nat) (s e : Nat)
    (hs : find JPEG_START (buf ++ chunk) 0 = some s)
    (he : find JPEG_END (buf ++ chunk) s = some e)
    (hv : valid (((buf ++ chunk).drop s).take (e + 2 - s)) = false) :
    handle valid buf chunk = ((buf ++ chunk).drop (s + 2), none) := by
  unfold handle
  exact scan_of_invalid hs he hv

/-- Witness for the amended C1 at the 4-byte invalid candidate. -/
theorem C1_witness :
    handle val100 [] [255, 216, 255, 217] = (([] ++ [255, 216, 255, 217]).drop (0 + 2), none) :=
  C1_invalid_discards_once val100 [] [255, 216, 255, 217] 0 2
    (by decide) (by decide) (by decide)

/-- C3 (counterexample): `ingest("")` is not always a no-op.  After
ingesting `frameA ++ frameB` into an empty buffer (which emits `frameA`
and leaves `frameB` buffered), a subsequent `ingest("")` emits `frameB`
and changes the buffer. -/
theorem C3_counterexample :
    handle val100 (handle val100 [] (frameA ++ frameB)).1 [] ≠
      ((handle val100 [] (frameA ++ frameB)).1, none) := by
  decide

/-- C3 (amended): `ingest("")` any number of times emits nothing and
leaves the buffer unchanged provided the buffer contains no complete
start/end marker pair; when a complete pair is pending, `ingest("")`
instead drains it. -/
theorem C3_empty_ingest_noop (valid : List Nat → Bool) (buf : List Nat)
    (h : find JPEG_START buf 0 = none ∨
      ∃ s, find JPEG_START buf 0 = some s ∧ find JPEG_END buf s = none) :
    ∀ n, run valid buf (List.replicate n []) = (buf, []) := by
  have hscan : scan valid buf = (buf, none) := by
    rcases h with h | ⟨s, hs, he⟩
    · exact scan_no_start h
    · exact scan_no_end hs he
  have hh : handle valid buf [] = (buf, none) := by
    rw [handle_empty]
    exact hscan
  intro n
  induction n with
  | zero => rfl
  | succ n ih =>
    rw [List.replicate_succ, run_cons, hh, ih]
    simp

/-- Witness for the amended C3: a buffer holding a start marker but no
end marker is untouched by three empty ingest calls. -/
theorem C3_witness :
    run val100 [255, 216, 0] (List.replicate 3 []) = ([255, 216, 0], []) :=
  C3_empty_ingest_noop val100 [255, 216, 0]
    (Or.inr ⟨0, by decide, by decide⟩) 3

/-- C2 (counterexample): the emitted-payload set is not chunk-split
invariant for the bare runs.  Feeding `frameA ++ frameB` in one call
emits only `frameA` (one frame per call), while feeding `frameA` then
`frameB` emits both. -/
theorem C2_counterexample :
    frameB ∈ (run val100 [] [frameA, frameB]).2 ∧
      frameB ∉ (run val100 [] [frameA ++ frameB]).2 := by
  refine ⟨by decide, by decide⟩

/-- C2 (amended): once each run is extended with enough empty ingest
calls to drain every remaining complete frame from its final buffer
(`drain`), the emitted payload sequence — hence the emitted set —
depends only on the concatenation of the chunks, not on the split. -/
theorem C2_split_invariance_drained (valid : List Nat → Bool) (cs ds : List (List Nat))
    (h : cs.flatten = ds.flatten) :
    (run valid [] cs).2 ++ (drain valid (run valid [] cs).1).2 =
      (run valid [] ds).2 ++ (drain valid (run valid [] ds).1).2 := by
  rw [run_drain_join valid cs [], run_drain_join valid ds []]
  rw [List.nil_append, List.nil_append, h]

/-- Witness for the amended C2: the two splits of `frameA ++ frameB`
from the counterexample agree after draining. -/
theorem C2_witness :
    (run val100 [] [frameA ++ frameB]).2 ++
        (drain val100 (run val100 [] [frameA ++ frameB]).1).2 =
      (run val100 [] [frameA, frameB]).2 ++
        (drain val100 (run val100 [] [frameA, frameB]).1).2 :=
  C2_split_invariance_drained val100 [frameA ++ frameB] [frameA, frameB] (by decide)

/-- C7: a stream `garbage1 ++ START ++ payload ++ END ++ garbage2`, with
no start-marker bytes in the garbage and no end-marker bytes in the
payload, and whose framed payload passes validation, yields exactly one
emission — the frame `START ++ payload ++ END` — leaving `garbage2`
buffered, from which no further frame can ever be drained. -/
theorem C7_single_frame_stream (valid : List Nat → Bool) (g1 mid g2 : List Nat)
    (hg1 : noOcc 255 216 g1 = true)
    (hmid : noOcc 255 217 mid = true)
    (hg2 : noOcc 255 216 g2 = true)
    (hv : valid (JPEG_START ++ (mid ++ JPEG_END)) = true) :
    handle valid [] ((g1 ++ (JPEG_START ++ (mid ++ JPEG_END))) ++ g2) =
      (g2, some (JPEG_START ++ (mid ++ JPEG_END))) ∧
    (drain valid g2).2 = [] := by
  have hassoc : (g1 ++ (JPEG_START ++ (mid ++ JPEG_END))) ++ g2 =
      g1 ++ ((JPEG_START ++ (mid ++ JPEG_END)) ++ g2) := List.append_assoc _ _ _
  have hs : find JPEG_START ((g1 ++ (JPEG_START ++ (mid ++ JPEG_END))) ++ g2) 0 =
      some g1.length := by
    rw [hassoc]
    have h0 := find_from_boundary (x := 255) (y := 216) (by omega)
      (u := []) (m := g1) (v := (JPEG_START ++ (mid ++ JPEG_END)) ++ g2) hg1
      (by simp [JPEG_START]) (by simp [JPEG_START])
    simpa using h0
  have hlen2 : (g1 ++ JPEG_START).length = g1.length + 2 := by
    simp [JPEG_START]
  have hassoc2 : (g1 ++ (JPEG_START ++ (mid ++ JPEG_END))) ++ g2 =
      (g1 ++ JPEG_START) ++ (mid ++ (JPEG_END ++ g2)) := by
    simp [List.append_assoc]
  have he2 : find JPEG_END ((g1 ++ (JPEG_START ++ (mid ++ JPEG_END))) ++ g2)
      (g1.length + 2) = some (g1.length + 2 + mid.length) := by
    rw [hassoc2, ← hlen2]
    exact find_from_boundary (by omega) hmid (by simp [JPEG_END]) (by simp [JPEG_END])
  have he : find JPEG_END ((g1 ++ (JPEG_START ++ (mid ++ JPEG_END))) ++ g2) g1.length =
      some (g1.length + 2 + mid.length) := by
    rw [find_end_skip_start hs]
    exact he2
  have hdropS : ((g1 ++ (JPEG_START ++ (mid ++ JPEG_END))) ++ g2).drop g1.length =
      (JPEG_START ++ (mid ++ JPEG_END)) ++ g2 := by
    rw [hassoc]
    exact List.drop_left _ _
  have hflen : (JPEG_START ++ (mid ++ JPEG_END)).length = mid.length + 4 := by
    simp only [List.length_append, JPEG_START, JPEG_END, List.length_cons, List.length_nil]
    omega
  have hcand : (((g1 ++ (JPEG_START ++ (mid ++ JPEG_END))) ++ g2).drop g1.length).take
      (g1.length + 2 + mid.length + 2 - g1.length) =
      JPEG_START ++ (mid ++ JPEG_END) := by
    rw [hdropS]
    have harith : g1.length + 2 + mid.length + 2 - g1.length =
        (JPEG_START ++ (mid ++ JPEG_END)).length := by
      rw [hflen]
      omega
    rw [harith]
    exact List.take_left _ _
  have hdropE : ((g1 ++ (JPEG_START ++ (mid ++ JPEG_END))) ++ g2).drop
      (g1.length + 2 + mid.length + 2) = g2 := by
    have harith : g1.length + 2 + mid.length + 2 =
        (g1 ++ (JPEG_START ++ (mid ++ JPEG_END))).length := by
      simp only [List.length_append, JPEG_START, JPEG_END, List.length_cons,
        List.length_nil]
      omega
    rw [harith]
    exact List.drop_left _ _
  constructor
  · unfold handle
    rw [List.nil_append]
    rw [scan_of_valid hs he (by rw [hcand]; exact hv)]
    rw [hcand, hdropE]
  · have hstart : find JPEG_START g2 0 = none := find_none_of_noOcc hg2 0
    rw [drain_no_progress (scan_no_start hstart)]

/-- Witness for C7: garbage byte `1`, a 96-byte payload of `7`s, trailing
garbage byte `2`. -/
theorem C7_witness :
    handle val100 [] (([1] ++ (JPEG_START ++ (List.replicate 96 7 ++ JPEG_END))) ++ [2]) =
      ([2], some (JPEG_START ++ (List.replicate 96 7 ++ JPEG_END))) ∧
    (drain val100 [2]).2 = [] :=
  C7_single_frame_stream val100 [1] (List.replicate 96 7) [2]
    (by decide) (by decide) (by decide) (by decide)
